import Mathlib

set_option maxRecDepth 100000
set_option maxHeartbeats 1000000

/-!
Shallow embedding of the CHIP-8 interpreter core (`src/chip/src/lib.rs`).

Machine integers are modelled as `Nat` with explicit `% 2 ^ w` where overflow
matters.  Fallible behaviour is modelled with `Option`: a Rust panic (an
out-of-bounds slice index) is `none`, a `return Err(e)` is `some (some e, s)`
carrying the state at the point of return, and an `Ok(())` is `some (none, s)`.
The runtime stack is a `List Nat` whose head is the top of the `Vec`.
-/

/-- Errors returned by the interpreter core (`enum Error` in the source). -/
inductive Error where
  | UndefinedOp : Nat → Error
  | PoppedEmptyStack : Error
deriving DecidableEq

/-- Machine state of the CHIP-8 core (`struct ChipState` in the source):
4096 bytes of memory, 16 byte registers, the 16-bit I and PC registers, the
runtime stack, 32 framebuffer rows of 64-bit masks, the 16-bit key mask, the
two 8-bit timers and the 64-bit RNG seed. -/
structure ChipState where
  mem : List Nat
  reg : List Nat
  i : Nat
  pc : Nat
  stack : List Nat
  fbuf : List Nat
  keys : Nat
  d_tim : Nat
  s_tim : Nat
  rng_seed : Nat
deriving DecidableEq

/-- Read a general-purpose register (`impl Index<u8> for Registers`). -/
def regGet (s : ChipState) (x : Nat) : Nat := s.reg.getD x 0

/-- Write a general-purpose register (`impl IndexMut<u8> for Registers`). -/
def regSet (s : ChipState) (x v : Nat) : ChipState := { s with reg := s.reg.set x v }

/-- Advance the program counter by one instruction (`self.pc += 2` on `u16`). -/
def pcAdd2 (s : ChipState) : ChipState := { s with pc := (s.pc + 2) % 65536 }

/-- Bounds-checked byte store into memory: `self.mem[idx] = v`, where an index
out of range is a panic, modelled as `none`. -/
def memSet (mem : List Nat) (idx v : Nat) : Option (List Nat) :=
  if idx < mem.length then some (mem.set idx v) else none

/-- Saturating decrement of both timers (`saturating_sub(1)` on `u8`; truncated
`Nat` subtraction is exactly saturating subtraction). -/
def tickTimers (s : ChipState) : ChipState :=
  { s with d_tim := s.d_tim - 1, s_tim := s.s_tim - 1 }

/-- Test one bit of the key mask (`ChipState::key_is_pressed`). -/
def key_is_pressed (s : ChipState) (key : Nat) : Bool := (s.keys >>> key) &&& 1 == 1

/-- 8-bit wrapping addition (`overflowing_add` on `u8`). -/
def wadd8 (a b : Nat) : Nat := (a + b) % 256

/-- 8-bit wrapping subtraction (`overflowing_sub` on `u8`). -/
def wsub8 (a b : Nat) : Nat := (a % 256 + 256 - b % 256) % 256

/-- Xorshift64: the three fixed shift-xor steps of `ChipState::rand` mutating
the 64-bit seed. -/
def xorshift64 (seed : Nat) : Nat :=
  let s1 := (seed ^^^ (seed <<< 13)) % 2 ^ 64
  let s2 := (s1 ^^^ (s1 >>> 17)) % 2 ^ 64
  let s3 := (s2 ^^^ (s2 <<< 5)) % 2 ^ 64
  s3

/-- Random byte source (`ChipState::rand`): advance the seed by xorshift64 and
return its low byte together with the updated state. -/
def rand (s : ChipState) : Nat × ChipState :=
  let seed := xorshift64 s.rng_seed
  (seed &&& 0xFF, { s with rng_seed := seed })

/-- Structural list indexing used for memory reads (`self.mem[idx]` with a
panic, i.e. `none`, when out of range); structurally recursive so that closed
instances evaluate without computing the length of the 4096-byte list. -/
def memGet : List Nat → Nat → Option Nat
  | [], _ => none
  | b :: _, 0 => some b
  | _ :: rest, n + 1 => memGet rest n

/-- Sprite line for one byte of a `DXYN` draw: the byte in the top 8 bits of a
64-bit row, shifted right to the sprite column (`u64::from(byte) << 56 >> x`). -/
def lineOf (b x : Nat) : Nat := ((b <<< 56) % 2 ^ 64) >>> x

/-- Draw loop of `DXYN` over `cnt` sprite bytes starting at memory address
`addr` and framebuffer row `y`, threading the framebuffer and the per-row
collision flag that the source writes into register F on every iteration; an
out-of-bounds sprite byte read is a panic (`none`); after drawing a row the row
counter is incremented and the loop breaks once it passes 31. -/
def drawLoop (mem : List Nat) (x : Nat) : Nat → Nat → Nat → List Nat → Nat → Option (List Nat × Nat)
  | _, 0, _, fbuf, vf => some (fbuf, vf)
  | addr, cnt + 1, y, fbuf, vf =>
    match memGet mem addr with
    | none => none
    | some byte =>
      let line := lineOf byte x
      let compare := fbuf.getD y 0 ||| line
      let newRow := fbuf.getD y 0 ^^^ line
      let fbuf1 := fbuf.set y newRow
      let vf1 := if newRow ≠ compare then 1 else 0
      if y + 1 > 31 then some (fbuf1, vf1)
      else drawLoop mem x (addr + 1) cnt (y + 1) fbuf1 vf1

/-- Key scan of `FX0A`: the `for i in 0..=0xF` loop that breaks at the first
pressed key, started at `k`. -/
def findPressed (s : ChipState) (k : Nat) : Option Nat :=
  if k < 16 then
    if key_is_pressed s k then some k else findPressed s (k + 1)
  else none
termination_by 16 - k

/-- Store loop of `FX55`: write registers `x, x + 1, ...` (`k` of them) into
memory at `base + x` onward; an out-of-bounds write is a panic (`none`). -/
def storeRegs (reg : List Nat) (base : Nat) : Nat → Nat → List Nat → Option (List Nat)
  | _, 0, mem => some mem
  | x, k + 1, mem =>
    match memSet mem (base + x) (reg.getD x 0) with
    | none => none
    | some m => storeRegs reg base (x + 1) k m

/-- Load loop of `FX65`: read registers `x, x + 1, ...` (`k` of them) from
memory at `base + x` onward; an out-of-bounds read is a panic (`none`). -/
def loadRegs (mem : List Nat) (base : Nat) : Nat → Nat → List Nat → Option (List Nat)
  | _, 0, reg => some reg
  | x, k + 1, reg =>
    match memGet mem (base + x) with
    | none => none
    | some v => loadRegs mem base (x + 1) k (reg.set x v)

/-- Decode/execute dispatch of `ChipState::eval` without the trailing timer
decrement: the source's match on `upper & 0xF0` and on the further nibbles,
arm by arm.  Every `return Err(..)` carries the state at the point of return,
which in the source is always the unmutated input state. -/
def evalMatch (s : ChipState) (instr : Nat) : Option (Option Error × ChipState) :=
  let upper := (instr >>> 8) % 256
  let lower := instr % 256
  let nib := upper &&& 0xF0
  if nib = 0x00 then
    if instr = 0x00E0 then some (none, pcAdd2 { s with fbuf := List.replicate 32 0 })
    else if instr = 0x00EE then
      match s.stack with
      | a :: rest => some (none, { s with pc := a, stack := rest })
      | [] => some (some Error.PoppedEmptyStack, s)
    else some (some (Error.UndefinedOp instr), s)
  else if nib = 0x10 then
    some (none, { s with pc := instr &&& 0x0FFF })
  else if nib = 0x20 then
    some (none, { s with stack := ((s.pc + 2) % 65536) :: s.stack, pc := instr &&& 0x0FFF })
  else if nib = 0x30 then
    let s1 := if regGet s (upper &&& 0x0F) = lower then pcAdd2 s else s
    some (none, pcAdd2 s1)
  else if nib = 0x40 then
    let s1 := if regGet s (upper &&& 0x0F) ≠ lower then pcAdd2 s else s
    some (none, pcAdd2 s1)
  else if nib = 0x50 then
    if lower &&& 0x0F = 0x00 then
      let s1 := if regGet s (upper &&& 0x0F) = regGet s ((lower &&& 0xF0) >>> 4) then pcAdd2 s else s
      some (none, pcAdd2 s1)
    else some (some (Error.UndefinedOp instr), s)
  else if nib = 0x60 then
    some (none, pcAdd2 (regSet s (upper &&& 0x0F) lower))
  else if nib = 0x70 then
    some (none, pcAdd2 (regSet s (upper &&& 0x0F) (wadd8 (regGet s (upper &&& 0x0F)) lower)))
  else if nib = 0x80 then
    let x := upper &&& 0x0F
    let y := (lower &&& 0xF0) >>> 4
    let c := lower &&& 0x0F
    if c = 0x00 then some (none, pcAdd2 (regSet s x (regGet s y)))
    else if c = 0x01 then
      some (none, pcAdd2 (regSet (regSet s x (regGet s x ||| regGet s y)) 0xF 0))
    else if c = 0x02 then
      some (none, pcAdd2 (regSet (regSet s x (regGet s x &&& regGet s y)) 0xF 0))
    else if c = 0x03 then
      some (none, pcAdd2 (regSet (regSet s x (regGet s x ^^^ regGet s y)) 0xF 0))
    else if c = 0x04 then
      let sum := wadd8 (regGet s x) (regGet s y)
      let overflow := 256 ≤ regGet s x + regGet s y
      let s1 := regSet s x sum
      some (none, pcAdd2 (regSet s1 0xF (if overflow then 1 else 0)))
    else if c = 0x05 then
      let origx := regGet s x
      let diff := wsub8 (regGet s x) (regGet s y)
      let s1 := regSet s x diff
      some (none, pcAdd2 (regSet s1 0xF (if regGet s1 y < origx then 1 else 0)))
    else if c = 0x06 then
      let orig := regGet s y
      let s1 := regSet s x (orig >>> 1)
      some (none, pcAdd2 (regSet s1 0xF (orig &&& 0x1)))
    else if c = 0x07 then
      let diff := wsub8 (regGet s y) (regGet s x)
      let s1 := regSet s x diff
      some (none, pcAdd2 (regSet s1 0xF (if regGet s1 x < regGet s1 y then 1 else 0)))
    else if c = 0x0E then
      let orig := regGet s y
      let s1 := regSet s x ((orig <<< 1) % 256)
      some (none, pcAdd2 (regSet s1 0xF ((orig &&& 0x80) >>> 7)))
    else some (some (Error.UndefinedOp instr), s)
  else if nib = 0x90 then
    if instr &&& 0xF ≠ 0 then some (some (Error.UndefinedOp instr), s)
    else
      let s1 := if regGet s (upper &&& 0x0F) ≠ regGet s ((lower &&& 0xF0) >>> 4) then pcAdd2 s else s
      some (none, pcAdd2 s1)
  else if nib = 0xA0 then
    some (none, pcAdd2 { s with i := instr &&& 0x0FFF })
  else if nib = 0xB0 then
    some (none, { s with pc := ((instr &&& 0x0FFF) + regGet s 0x0) % 65536 })
  else if nib = 0xC0 then
    let r := rand s
    some (none, pcAdd2 (regSet r.2 (upper &&& 0xF) (r.1 &&& lower)))
  else if nib = 0xD0 then
    let x := regGet s (upper &&& 0x0F) % 64
    let y := regGet s ((lower &&& 0xF0) >>> 4) % 32
    let s0 := regSet s 0xF 0
    let n := lower &&& 0x0F
    let cnt := (s0.i + n) % 65536 - s0.i
    match drawLoop s0.mem x s0.i cnt y s0.fbuf 0 with
    | none => none
    | some (fb, vf) => some (none, pcAdd2 { s0 with fbuf := fb, reg := s0.reg.set 0xF vf })
  else if nib = 0xE0 then
    let key := regGet s (upper &&& 0x0F)
    if lower = 0x9E then
      let s1 := if key_is_pressed s key then pcAdd2 s else s
      some (none, pcAdd2 s1)
    else if lower = 0xA1 then
      let s1 := if !key_is_pressed s key then pcAdd2 s else s
      some (none, pcAdd2 s1)
    else some (some (Error.UndefinedOp instr), s)
  else if nib = 0xF0 then
    if lower = 0x07 then some (none, pcAdd2 (regSet s (upper &&& 0xF) s.d_tim))
    else if lower = 0x0A then
      match findPressed s 0 with
      | some k => some (none, pcAdd2 (regSet s (upper &&& 0x0F) k))
      | none => some (none, s)
    else if lower = 0x15 then some (none, pcAdd2 { s with d_tim := regGet s (0x0F &&& upper) })
    else if lower = 0x18 then some (none, pcAdd2 { s with s_tim := regGet s (0x0F &&& upper) })
    else if lower = 0x1E then
      some (none, pcAdd2 { s with i := (s.i + regGet s (0x0F &&& upper)) % 65536 })
    else if lower = 0x29 then
      some (none, pcAdd2 { s with i := (regGet s (0x0F &&& upper) * 5) % 65536 })
    else if lower = 0x33 then
      let v := regGet s (upper &&& 0x0F)
      match memSet s.mem s.i (v / 100) with
      | none => none
      | some m1 =>
        match memSet m1 (s.i + 1) (v % 100 / 10) with
        | none => none
        | some m2 =>
          match memSet m2 (s.i + 2) (v % 10) with
          | none => none
          | some m3 => some (none, pcAdd2 { s with mem := m3 })
    else if lower = 0x55 then
      match storeRegs s.reg s.i 0 ((upper &&& 0x0F) + 1) s.mem with
      | none => none
      | some m => some (none, pcAdd2 { s with mem := m, i := (s.i + 1) % 65536 })
    else if lower = 0x65 then
      match loadRegs s.mem s.i 0 ((upper &&& 0x0F) + 1) s.reg with
      | none => none
      | some r => some (none, pcAdd2 { s with reg := r, i := (s.i + 1) % 65536 })
    else some (some (Error.UndefinedOp instr), s)
  else some (some (Error.UndefinedOp instr), s)

/-- Full `ChipState::eval`: the dispatch, then on success the saturating
decrement of both timers before returning `Ok(())`; `return Err` paths and
panics skip the decrement. -/
def eval (s : ChipState) (instr : Nat) : Option (Option Error × ChipState) :=
  match evalMatch s instr with
  | some (none, s1) => some (none, tickTimers s1)
  | r => r

/-- Big-endian two-byte instruction fetch at `[PC, PC + 1]` from
`ChipState::tick`; an out-of-range index is a panic (`none`). -/
def fetchInstr (s : ChipState) : Option Nat :=
  match memGet s.mem s.pc, memGet s.mem (s.pc + 1) with
  | some hi, some lo => some ((hi <<< 8) ||| lo)
  | _, _ => none

/-- The single-step entry point `ChipState::tick`: fetch the instruction word
at PC and evaluate it. -/
def tick (s : ChipState) : Option (Option Error × ChipState) :=
  match fetchInstr s with
  | some instr => eval s instr
  | none => none

/-- The 16 five-byte hexadecimal glyph sprites (`HEX_SPRITES`), flattened in
order. -/
def hexSprites : List Nat :=
  [0xF0, 0x90, 0x90, 0x90, 0xF0,
   0x20, 0x60, 0x20, 0x20, 0x70,
   0xF0, 0x10, 0xF0, 0x80, 0xF0,
   0xF0, 0x10, 0xF0, 0x10, 0xF0,
   0x90, 0x90, 0xF0, 0x10, 0x10,
   0xF0, 0x80, 0xF0, 0x10, 0xF0,
   0xF0, 0x80, 0xF0, 0x90, 0xF0,
   0xF0, 0x10, 0x20, 0x40, 0x40,
   0xF0, 0x90, 0xF0, 0x90, 0xF0,
   0xF0, 0x90, 0xF0, 0x10, 0xF0,
   0xF0, 0x90, 0xF0, 0x90, 0x90,
   0xE0, 0x90, 0xE0, 0x90, 0xE0,
   0xF0, 0x80, 0x80, 0x80, 0xF0,
   0xE0, 0x90, 0x90, 0x90, 0xE0,
   0xF0, 0x80, 0xF0, 0x80, 0xF0,
   0xF0, 0x80, 0xF0, 0x80, 0x80]

/-- `ChipState::new(seed)`: zeroed state with the glyph sprites copied into the
first 80 bytes of memory and the given RNG seed. -/
def ChipState.new (seed : Nat) : ChipState :=
  { mem := hexSprites ++ List.replicate (0x1000 - 80) 0,
    reg := List.replicate 16 0, i := 0, pc := 0,
    stack := [], fbuf := List.replicate 32 0, keys := 0,
    d_tim := 0, s_tim := 0, rng_seed := seed }

/-- Characterization of the instruction words listed in the spec's opcode table
(the defined patterns of section 4.2); `eval` is proved to reject exactly the
words outside this set. -/
def listedOp (instr : Nat) : Bool :=
  let a := instr / 4096
  let d := instr % 16
  let kk := instr % 256
  if a = 0x0 then (if instr = 0x00E0 ∨ instr = 0x00EE then true else false)
  else if a = 0x5 then (if d = 0 then true else false)
  else if a = 0x8 then (if d ≤ 7 ∨ d = 0xE then true else false)
  else if a = 0x9 then (if d = 0 then true else false)
  else if a = 0xE then (if kk = 0x9E ∨ kk = 0xA1 then true else false)
  else if a = 0xF then
    (if kk = 0x07 ∨ kk = 0x0A ∨ kk = 0x15 ∨ kk = 0x18 ∨ kk = 0x1E ∨
      kk = 0x29 ∨ kk = 0x33 ∨ kk = 0x55 ∨ kk = 0x65 then true else false)
  else (if a ≤ 0xD then true else false)

/-- Run a list of instruction words through `eval`, stopping at the first
error or panic (used to state facts about short instruction sequences). -/
def evalSeq : ChipState → List Nat → Option (Option Error × ChipState)
  | s, [] => some (none, s)
  | s, instr :: rest =>
    match eval s instr with
    | some (none, s1) => evalSeq s1 rest
    | r => r

/-- Projection: the value of register `x` after evaluating `instr`. -/
def regAfter (s : ChipState) (instr x : Nat) : Option Nat :=
  (eval s instr).map fun r => regGet r.2 x

/-- Projection: the program counter after evaluating `instr`. -/
def pcAfter (s : ChipState) (instr : Nat) : Option Nat :=
  (eval s instr).map fun r => r.2.pc

/-- Projection: the I register after evaluating `instr`. -/
def iAfter (s : ChipState) (instr : Nat) : Option Nat :=
  (eval s instr).map fun r => r.2.i

/-- Projection: the runtime stack after evaluating `instr`. -/
def stackAfter (s : ChipState) (instr : Nat) : Option (List Nat) :=
  (eval s instr).map fun r => r.2.stack

/-- Projection: the RNG seed after evaluating `instr`. -/
def seedAfter (s : ChipState) (instr : Nat) : Option Nat :=
  (eval s instr).map fun r => r.2.rng_seed

/-- Projection: the delay timer after evaluating `instr`. -/
def dtimAfter (s : ChipState) (instr : Nat) : Option Nat :=
  (eval s instr).map fun r => r.2.d_tim

/-- Projection: the sound timer after evaluating `instr`. -/
def stimAfter (s : ChipState) (instr : Nat) : Option Nat :=
  (eval s instr).map fun r => r.2.s_tim

/-- Projection: the error component (`none` for `Ok`) after evaluating `instr`. -/
def errAfter (s : ChipState) (instr : Nat) : Option (Option Error) :=
  (eval s instr).map fun r => r.1

/-- Projection: framebuffer row `row` after evaluating `instr`. -/
def rowAfter (s : ChipState) (instr row : Nat) : Option Nat :=
  (eval s instr).map fun r => r.2.fbuf.getD row 0

/-- Projection: the memory byte at address `a` after evaluating `instr`. -/
def memAfter (s : ChipState) (instr a : Nat) : Option Nat :=
  (eval s instr).map fun r => r.2.mem.getD a 0

/-- Small concrete state used to exercise the embedding on closed inputs. -/
def smallChip : ChipState :=
  { mem := [], reg := List.replicate 16 0, i := 0, pc := 0x200,
    stack := [], fbuf := List.replicate 32 0, keys := 0,
    d_tim := 0, s_tim := 0, rng_seed := 1 }

/-- Concrete machine with reg[0] = 7 and I = 0x300, used as a witness input
for the register/memory transfer opcodes. -/
def chip9 : ChipState := { regSet (ChipState.new 1) 0 7 with i := 0x300 }

/-- Concrete machine with I = 0xFFF and reg[1] = 31: a sprite draw placed at
the bottom edge of the screen and the last byte of memory. -/
def clipChip : ChipState :=
  { ChipState.new 0 with i := 0xFFF, reg := (List.replicate 16 0).set 1 31 }

/-- The machine state after drawing the digit-0 glyph at (0,0) on a fresh
machine (used to state the repeated-draw collision fact). -/
def draw1 : ChipState :=
  ((eval (ChipState.new 3) 0xD005).getD (none, ChipState.new 3)).2

example : (eval smallChip 0x00E0).isSome = true := by decide
example : eval smallChip 0x00EE =
    some (some Error.PoppedEmptyStack, smallChip) := by decide
example : eval smallChip 0x5001 =
    some (some (Error.UndefinedOp 0x5001), smallChip) := by decide
example : eval (regSet smallChip 0xA 0) 0x6A3C =
    some (none, pcAdd2 (regSet smallChip 0xA 0x3C)) := by decide

/-! Arithmetic facts about the nibble and mask operations used by the decoder. -/

theorem and15 (n : Nat) : n &&& 15 = n % 16 := by
  simpa using Nat.and_pow_two_sub_one_eq_mod n 4

theorem and15L (n : Nat) : 15 &&& n = n % 16 := by
  rw [Nat.and_comm]; exact and15 n

theorem and255 (n : Nat) : n &&& 255 = n % 256 := by
  simpa using Nat.and_pow_two_sub_one_eq_mod n 8

theorem and4095 (n : Nat) : n &&& 4095 = n % 4096 := by
  simpa using Nat.and_pow_two_sub_one_eq_mod n 12

theorem andF0 : ∀ u, u < 256 → u &&& 240 = u / 16 * 16 := by decide

theorem shr8 (n : Nat) : n >>> 8 = n / 256 := by
  rw [Nat.shiftRight_eq_div_pow]

theorem shr4 (n : Nat) : n >>> 4 = n / 16 := by
  rw [Nat.shiftRight_eq_div_pow]

/-! Basic facts about the state helpers. -/

theorem memGet_eq (l : List Nat) : ∀ i, memGet l i = l[i]? := by
  induction l with
  | nil => intro i; cases i <;> simp [memGet]
  | cons b rest ih =>
    intro i
    cases i with
    | zero => simp [memGet]
    | succ n => simpa [memGet] using ih n

theorem new_mem_length (seed : Nat) : (ChipState.new seed).mem.length = 4096 := by
  show (hexSprites ++ List.replicate 4016 0).length = 4096
  rw [List.length_append, List.length_replicate]
  rfl

theorem regGet_set_self (s : ChipState) (x v : Nat) (h : x < s.reg.length) :
    regGet (regSet s x v) x = v := by
  simp [regGet, regSet, List.getD_eq_getElem?_getD, List.getElem?_set_self h]

theorem regGet_set_ne (s : ChipState) (x v y : Nat) (h : x ≠ y) :
    regGet (regSet s x v) y = regGet s y := by
  simp [regGet, regSet, List.getD_eq_getElem?_getD, List.getElem?_set_ne h]

theorem eval_ok {s : ChipState} {instr : Nat} {s1 : ChipState}
    (h : evalMatch s instr = some (none, s1)) :
    eval s instr = some (none, tickTimers s1) := by
  simp [eval, h]

theorem eval_err {s : ChipState} {instr : Nat} {e : Error} {s1 : ChipState}
    (h : evalMatch s instr = some (some e, s1)) :
    eval s instr = some (some e, s1) := by
  simp [eval, h]

theorem eval_ok_inv {s : ChipState} {instr : Nat} {s' : ChipState}
    (h : eval s instr = some (none, s')) :
    ∃ s1, evalMatch s instr = some (none, s1) ∧ s' = tickTimers s1 := by
  unfold eval at h
  cases hm : evalMatch s instr with
  | none => rw [hm] at h; simp at h
  | some p =>
    obtain ⟨e, s1⟩ := p
    cases e with
    | none =>
      rw [hm] at h
      simp at h
      exact ⟨s1, rfl, h.symm⟩
    | some e =>
      rw [hm] at h
      simp at h

/-! Dispatch lemmas: evaluation of single decoded opcode families. -/

theorem evalMatch_2nnn (s : ChipState) (nnn : Nat) (h : nnn < 4096) :
    evalMatch s (0x2000 + nnn) =
      some (none, { s with stack := ((s.pc + 2) % 65536) :: s.stack, pc := nnn }) := by
  have e1 : (0x2000 + nnn) >>> 8 % 256 = 32 + nnn / 256 := by rw [shr8]; omega
  have e3 : (32 + nnn / 256) &&& 240 = 32 := by rw [andF0 _ (by omega)]; omega
  have e7 : (0x2000 + nnn) &&& 4095 = nnn := by rw [and4095]; omega
  simp only [evalMatch, e1, e3, e7]
  norm_num

theorem evalMatch_00ee (s : ChipState) :
    evalMatch s 0x00EE =
      (match s.stack with
       | a :: rest => some (none, { s with pc := a, stack := rest })
       | [] => some (some Error.PoppedEmptyStack, s)) := by
  have e : (0x00EE >>> 8) % 256 &&& 240 = 0 := by decide
  simp only [evalMatch, e]
  norm_num

theorem evalMatch_cxkk (s : ChipState) (x kk : Nat) (hx : x < 16) (hk : kk < 256) :
    evalMatch s (0xC000 + x * 256 + kk) =
      some (none, pcAdd2 (regSet (rand s).2 x ((rand s).1 &&& kk))) := by
  have e1 : (0xC000 + x * 256 + kk) >>> 8 % 256 = 192 + x := by rw [shr8]; omega
  have e2 : (0xC000 + x * 256 + kk) % 256 = kk := by omega
  have e3 : (192 + x) &&& 240 = 192 := by rw [andF0 _ (by omega)]; omega
  have e4 : (192 + x) &&& 15 = x := by rw [and15]; omega
  simp only [evalMatch, e1, e2, e3, e4]
  norm_num

theorem evalMatch_fx15 (s : ChipState) (x : Nat) (hx : x < 16) :
    evalMatch s (0xF015 + x * 256) =
      some (none, pcAdd2 { s with d_tim := regGet s x }) := by
  have e1 : (0xF015 + x * 256) >>> 8 % 256 = 240 + x := by rw [shr8]; omega
  have e2 : (0xF015 + x * 256) % 256 = 0x15 := by omega
  have e3 : (240 + x) &&& 240 = 240 := by rw [andF0 _ (by omega)]; omega
  have e4 : 15 &&& (240 + x) = x := by rw [and15L]; omega
  simp only [evalMatch, e1, e2, e3, e4]
  norm_num

/-! Claim theorems. -/

/-- C1: the claim (borrow flags of `8XY5`/`8XY7` computed from pre-operation
values) fails on the code.  Evaluating the code at the failing inputs:
`8XY7` with X=0, Y=1 on reg[0]=0, reg[1]=5 stores the wrapped difference 5 but
leaves register F = 0 — the source compares reg[Y] against the already-updated
reg[X] (5 > 5 fails) — where the pre-operation comparison 5 > 0 requires 1;
and `8XY5` with X=Y=1 on reg[1]=5 stores 0 and leaves register F = 1 — the
source compares the saved original reg[X] against the already-zeroed aliased
reg[Y] — where the pre-operation comparison 5 > 5 requires 0. -/
theorem c1_sub_borrow_flag_bug :
    regAfter (regSet (regSet smallChip 0x0 0) 0x1 5) 0x8017 0x0 = some 5 ∧
    regAfter (regSet (regSet smallChip 0x0 0) 0x1 5) 0x8017 0xF = some 0 ∧
    regAfter (regSet smallChip 0x1 5) 0x8115 0x1 = some 0 ∧
    regAfter (regSet smallChip 0x1 5) 0x8115 0xF = some 1 := by decide

/-- C4: the random byte source is a deterministic pure function of the 64-bit
RNG seed — `CXKK` writes `(xorshift64 seed &&& 0xFF) &&& KK` into register X
and stores the stepped seed — so two machines with equal seeds obtain equal
register results and equal successor seeds from the same `CXKK` instruction,
and the instruction succeeds. -/
theorem c4_rng_deterministic (s t : ChipState) (x kk : Nat) (hx : x < 16)
    (hk : kk < 256) (hs : s.reg.length = 16) (ht : t.reg.length = 16)
    (hseed : s.rng_seed = t.rng_seed) :
    regAfter s (0xC000 + x * 256 + kk) x =
      some ((xorshift64 s.rng_seed &&& 0xFF) &&& kk) ∧
    regAfter t (0xC000 + x * 256 + kk) x = regAfter s (0xC000 + x * 256 + kk) x ∧
    seedAfter s (0xC000 + x * 256 + kk) = some (xorshift64 s.rng_seed) ∧
    seedAfter t (0xC000 + x * 256 + kk) = seedAfter s (0xC000 + x * 256 + kk) ∧
    errAfter s (0xC000 + x * 256 + kk) = some none := by
  have hes := eval_ok (evalMatch_cxkk s x kk hx hk)
  have het := eval_ok (evalMatch_cxkk t x kk hx hk)
  refine ⟨?_, ?_, ?_, ?_, ?_⟩ <;>
    simp [regAfter, seedAfter, errAfter, hes, het, tickTimers, pcAdd2, regGet, regSet,
      rand, hseed, List.getD_eq_getElem?_getD, List.getElem?_set_self, hs, ht, hx]

/-- C4, witness: two concrete machines with the same seed and different PCs
obtain the same register value from `C27F`. -/
theorem c4_rng_deterministic_witness :
    (2 < 16 ∧ (127 : Nat) < 256 ∧ smallChip.reg.length = 16 ∧
      (pcAdd2 smallChip).reg.length = 16 ∧
      smallChip.rng_seed = (pcAdd2 smallChip).rng_seed) ∧
    regAfter smallChip (0xC000 + 2 * 256 + 127) 2 =
      some ((xorshift64 smallChip.rng_seed &&& 0xFF) &&& 127) ∧
    regAfter (pcAdd2 smallChip) (0xC000 + 2 * 256 + 127) 2 =
      regAfter smallChip (0xC000 + 2 * 256 + 127) 2 :=
  ⟨by decide,
   (c4_rng_deterministic smallChip (pcAdd2 smallChip) 2 127 (by decide) (by decide)
      (by decide) (by decide) (by decide)).1,
   (c4_rng_deterministic smallChip (pcAdd2 smallChip) 2 127 (by decide) (by decide)
      (by decide) (by decide) (by decide)).2.1⟩

/-- C5: `2NNN` pushes PC+2 and jumps to NNN, and a directly following `00EE`
(no intervening stack operation) returns with PC equal to the address just
after the call site (call-site PC + 2) and the stack restored. -/
theorem c5_call_return (s : ChipState) (nnn : Nat) (h : nnn < 4096)
    (h2 : s.pc + 2 < 65536) :
    pcAfter s (0x2000 + nnn) = some nnn ∧
    stackAfter s (0x2000 + nnn) = some ((s.pc + 2) :: s.stack) ∧
    (evalSeq s [0x2000 + nnn, 0x00EE]).map (fun r => (r.1, r.2.pc, r.2.stack)) =
      some (none, s.pc + 2, s.stack) := by
  have hmod : (s.pc + 2) % 65536 = s.pc + 2 := Nat.mod_eq_of_lt h2
  have he1 := eval_ok (evalMatch_2nnn s nnn h)
  have he2 := eval_ok (evalMatch_00ee
    (tickTimers { s with stack := (s.pc + 2) % 65536 :: s.stack, pc := nnn }))
  refine ⟨?_, ?_, ?_⟩
  · simp [pcAfter, he1, tickTimers]
  · simp [stackAfter, he1, tickTimers, hmod]
  · simp only [evalSeq, he1]
    simp only [tickTimers] at he2 ⊢
    simp only [evalSeq, he2]
    simp [hmod]

/-- C5, witness: calling `2300` from PC = 0x200 and returning with `00EE`
lands on 0x202 with an empty stack again. -/
theorem c5_call_return_witness :
    (0x300 < 4096 ∧ smallChip.pc + 2 < 65536) ∧
    pcAfter smallChip (0x2000 + 0x300) = some 0x300 ∧
    stackAfter smallChip (0x2000 + 0x300) = some ((smallChip.pc + 2) :: smallChip.stack) ∧
    (evalSeq smallChip [0x2000 + 0x300, 0x00EE]).map (fun r => (r.1, r.2.pc, r.2.stack)) =
      some (none, smallChip.pc + 2, smallChip.stack) :=
  ⟨⟨by decide, by decide⟩, c5_call_return smallChip 0x300 (by decide) (by decide)⟩

/-- C6: every `Ok` tick decrements both timers by exactly 1 after the opcode's
own effect (the dispatch), saturating at 0; in particular after `FX15` the
delay timer is the value written by the opcode minus 1 (saturating). -/
theorem c6_timers :
    (∀ s instr s', eval s instr = some (none, s') →
      ∃ s1, evalMatch s instr = some (none, s1) ∧ s' = tickTimers s1 ∧
        s'.d_tim = s1.d_tim - 1 ∧ s'.s_tim = s1.s_tim - 1 ∧
        (s1.d_tim = 0 → s'.d_tim = 0) ∧ (s1.s_tim = 0 → s'.s_tim = 0)) ∧
    (∀ s x, x < 16 → dtimAfter s (0xF015 + x * 256) = some (regGet s x - 1)) := by
  constructor
  · intro s instr s' h
    obtain ⟨s1, hm, hs⟩ := eval_ok_inv h
    exact ⟨s1, hm, hs, by simp [hs, tickTimers], by simp [hs, tickTimers],
      by intro h0; simp [hs, tickTimers, h0], by intro h0; simp [hs, tickTimers, h0]⟩
  · intro s x hx
    have he := eval_ok (evalMatch_fx15 s x hx)
    simp [dtimAfter, he, tickTimers, pcAdd2]

/-- C6, witness: `F315` on a machine with reg[3] = 7 leaves the delay timer
at 6. -/
theorem c6_timers_witness :
    (3 < 16) ∧
    dtimAfter (regSet smallChip 3 7) (0xF015 + 3 * 256) =
      some (regGet (regSet smallChip 3 7) 3 - 1) :=
  ⟨by decide, c6_timers.2 (regSet smallChip 3 7) 3 (by decide)⟩
theorem findPressed_none_aux (s : ChipState) :
    ∀ n k, 16 ≤ k + n → (∀ j, k ≤ j → j < 16 → key_is_pressed s j = false) →
      findPressed s k = none := by
  intro n
  induction n with
  | zero =>
    intro k hk _
    rw [findPressed, if_neg (by omega)]
  | succ n ih =>
    intro k hk h
    rw [findPressed]
    by_cases hlt : k < 16
    · rw [if_pos hlt, h k (Nat.le_refl k) hlt]
      simp only [Bool.false_eq_true, if_false]
      exact ih (k + 1) (by omega) (fun j hj hj16 => h j (by omega) hj16)
    · rw [if_neg hlt]

theorem findPressed_none (s : ChipState)
    (h : ∀ j, j < 16 → key_is_pressed s j = false) : findPressed s 0 = none :=
  findPressed_none_aux s 16 0 (by omega) (fun j _ hj => h j hj)

theorem findPressed_some_aux (s : ChipState) :
    ∀ n k m, 16 ≤ k + n → k ≤ m → m < 16 → key_is_pressed s m = true →
      (∀ j, k ≤ j → j < m → key_is_pressed s j = false) →
      findPressed s k = some m := by
  intro n
  induction n with
  | zero => intro k m hk hkm hm _ _; omega
  | succ n ih =>
    intro k m hk hkm hm hp h
    rw [findPressed, if_pos (by omega)]
    by_cases hkm2 : k = m
    · subst hkm2; rw [hp]; simp
    · rw [h k (Nat.le_refl k) (by omega)]
      simp only [Bool.false_eq_true, if_false]
      exact ih (k + 1) m (by omega) (by omega) hm hp (fun j hj hjm => h j (by omega) hjm)

theorem findPressed_some (s : ChipState) (m : Nat) (hm : m < 16)
    (hp : key_is_pressed s m = true)
    (h : ∀ j, j < m → key_is_pressed s j = false) : findPressed s 0 = some m :=
  findPressed_some_aux s 16 0 m (by omega) (by omega) hm hp (fun j _ hjm => h j hjm)

theorem evalMatch_fx0a (s : ChipState) (x : Nat) (hx : x < 16) :
    evalMatch s (0xF00A + x * 256) =
      (match findPressed s 0 with
       | some k => some (none, pcAdd2 (regSet s x k))
       | none => some (none, s)) := by
  have e1 : (0xF00A + x * 256) >>> 8 % 256 = 240 + x := by rw [shr8]; omega
  have e2 : (0xF00A + x * 256) % 256 = 0x0A := by omega
  have e3 : (240 + x) &&& 240 = 240 := by rw [andF0 _ (by omega)]; omega
  have e4 : (240 + x) &&& 15 = x := by rw [and15]; omega
  simp only [evalMatch, e1, e2, e3, e4]
  norm_num

/-- C8: `FX0A` with no key 0x0-0xF pressed returns `Ok`, leaves the whole
state unchanged except the timer decrement (in particular PC is unchanged, so
the next tick re-fetches the same instruction); with at least one key pressed
it writes the lowest pressed key into register X and advances PC by 2. -/
theorem c8_fx0a (s : ChipState) (x : Nat) (hx : x < 16) (hr : s.reg.length = 16) :
    ((∀ j, j < 16 → key_is_pressed s j = false) →
      eval s (0xF00A + x * 256) = some (none, tickTimers s) ∧
      pcAfter s (0xF00A + x * 256) = some s.pc ∧
      errAfter s (0xF00A + x * 256) = some none) ∧
    (∀ m, m < 16 → key_is_pressed s m = true →
      (∀ j, j < m → key_is_pressed s j = false) →
      regAfter s (0xF00A + x * 256) x = some m ∧
      pcAfter s (0xF00A + x * 256) = some ((s.pc + 2) % 65536) ∧
      errAfter s (0xF00A + x * 256) = some none) := by
  have hd := evalMatch_fx0a s x hx
  constructor
  · intro h
    rw [findPressed_none s h] at hd
    have he := eval_ok hd
    exact ⟨he, by simp [pcAfter, he, tickTimers], by simp [errAfter, he]⟩
  · intro m hm hp h
    rw [findPressed_some s m hm hp h] at hd
    have he := eval_ok hd
    refine ⟨?_, by simp [pcAfter, he, tickTimers, pcAdd2, regSet], by simp [errAfter, he]⟩
    simp [regAfter, he, tickTimers, pcAdd2, regGet, regSet,
      List.getD_eq_getElem?_getD, List.getElem?_set_self, hr, hx]

theorem storeRegs_some (reg : List Nat) (base : Nat) :
    ∀ k x mem, base + x + k ≤ mem.length →
      ∃ m, storeRegs reg base x k mem = some m ∧
        m.length = mem.length ∧
        (∀ t, x ≤ t → t < x + k → m.getD (base + t) 0 = reg.getD t 0) ∧
        (∀ a, a < base + x ∨ base + x + k ≤ a → m.getD a 0 = mem.getD a 0) := by
  intro k
  induction k with
  | zero =>
    intro x mem _
    exact ⟨mem, rfl, rfl, fun t ht1 ht2 => absurd ht2 (by omega), fun a _ => rfl⟩
  | succ k ih =>
    intro x mem h
    have hset : memSet mem (base + x) (reg.getD x 0) =
        some (mem.set (base + x) (reg.getD x 0)) := by
      rw [memSet, if_pos (by omega)]
    obtain ⟨m, hm, hlen, hin, hout⟩ :=
      ih (x + 1) (mem.set (base + x) (reg.getD x 0)) (by simp; omega)
    refine ⟨m, ?_, by simpa using hlen, ?_, ?_⟩
    · rw [storeRegs, hset]
      exact hm
    · intro t ht1 ht2
      by_cases hteq : t = x
      · subst hteq
        rw [hout (base + t) (by omega), List.getD_eq_getElem?_getD,
          List.getElem?_set_self (by omega)]
        rfl
      · exact hin t (by omega) (by omega)
    · intro a ha
      rw [hout a (by omega), List.getD_eq_getElem?_getD, List.getD_eq_getElem?_getD,
        List.getElem?_set_ne (by omega), ← List.getD_eq_getElem?_getD]

theorem storeRegs_none (reg : List Nat) (base : Nat) :
    ∀ k x mem, 1 ≤ k → mem.length < base + x + k → storeRegs reg base x k mem = none := by
  intro k
  induction k with
  | zero => intro x mem h; omega
  | succ k ih =>
    intro x mem _ h2
    by_cases hb : base + x < mem.length
    · have hset : memSet mem (base + x) (reg.getD x 0) =
          some (mem.set (base + x) (reg.getD x 0)) := by
        rw [memSet, if_pos hb]
      rw [storeRegs, hset]
      exact ih (x + 1) _ (by omega) (by simp; omega)
    · have hset : memSet mem (base + x) (reg.getD x 0) = none := by
        rw [memSet, if_neg hb]
      rw [storeRegs, hset]

theorem loadRegs_some (mem : List Nat) (base : Nat) :
    ∀ k x reg, base + x + k ≤ mem.length →
      ∃ r, loadRegs mem base x k reg = some r ∧
        r.length = reg.length ∧
        (∀ t, x ≤ t → t < x + k → t < reg.length → r.getD t 0 = mem.getD (base + t) 0) ∧
        (∀ t, t < x ∨ x + k ≤ t → r.getD t 0 = reg.getD t 0) := by
  intro k
  induction k with
  | zero =>
    intro x reg _
    exact ⟨reg, rfl, rfl, fun t ht1 ht2 _ => absurd ht2 (by omega), fun t _ => rfl⟩
  | succ k ih =>
    intro x reg h
    cases hv : memGet mem (base + x) with
    | none =>
      rw [memGet_eq] at hv
      have := List.getElem?_eq_none_iff.mp hv
      omega
    | some v =>
      obtain ⟨r, hr, hlen, hin, hout⟩ := ih (x + 1) (reg.set x v) (by omega)
      refine ⟨r, ?_, by simpa using hlen, ?_, ?_⟩
      · rw [loadRegs, hv]
        exact hr
      · intro t ht1 ht2 htlen
        by_cases hteq : t = x
        · subst hteq
          rw [memGet_eq] at hv
          rw [hout t (by omega), List.getD_eq_getElem?_getD,
            List.getElem?_set_self (by omega), List.getD_eq_getElem?_getD, hv]
        · exact hin t (by omega) (by omega) (by simpa using htlen)
      · intro t ht
        rw [hout t (by omega), List.getD_eq_getElem?_getD, List.getD_eq_getElem?_getD,
          List.getElem?_set_ne (by omega)]

theorem loadRegs_none (mem : List Nat) (base : Nat) :
    ∀ k x reg, 1 ≤ k → mem.length < base + x + k → loadRegs mem base x k reg = none := by
  intro k
  induction k with
  | zero => intro x reg h; omega
  | succ k ih =>
    intro x reg _ h2
    by_cases hb : base + x < mem.length
    · cases hv : memGet mem (base + x) with
      | none => rw [loadRegs, hv]
      | some v =>
        rw [loadRegs, hv]
        exact ih (x + 1) _ (by omega) (by omega)
    · have hv : memGet mem (base + x) = none := by
        rw [memGet_eq]
        exact List.getElem?_eq_none (by omega)
      rw [loadRegs, hv]

theorem evalMatch_fx55 (s : ChipState) (x : Nat) (hx : x < 16) :
    evalMatch s (0xF055 + x * 256) =
      (match storeRegs s.reg s.i 0 (x + 1) s.mem with
       | none => none
       | some m => some (none, pcAdd2 { s with mem := m, i := (s.i + 1) % 65536 })) := by
  have e1 : (0xF055 + x * 256) >>> 8 % 256 = 240 + x := by rw [shr8]; omega
  have e2 : (0xF055 + x * 256) % 256 = 0x55 := by omega
  have e3 : (240 + x) &&& 240 = 240 := by rw [andF0 _ (by omega)]; omega
  have e4 : (240 + x) &&& 15 = x := by rw [and15]; omega
  simp only [evalMatch, e1, e2, e3, e4]
  norm_num

theorem evalMatch_fx65 (s : ChipState) (x : Nat) (hx : x < 16) :
    evalMatch s (0xF065 + x * 256) =
      (match loadRegs s.mem s.i 0 (x + 1) s.reg with
       | none => none
       | some r => some (none, pcAdd2 { s with reg := r, i := (s.i + 1) % 65536 })) := by
  have e1 : (0xF065 + x * 256) >>> 8 % 256 = 240 + x := by rw [shr8]; omega
  have e2 : (0xF065 + x * 256) % 256 = 0x65 := by omega
  have e3 : (240 + x) &&& 240 = 240 := by rw [andF0 _ (by omega)]; omega
  have e4 : (240 + x) &&& 15 = x := by rw [and15]; omega
  simp only [evalMatch, e1, e2, e3, e4]
  norm_num

/-- C9: `FX55` stores registers 0..X to memory at the pre-operation I
onward, leaves all other memory bytes and all registers unchanged, and then
increases I by exactly 1; symmetrically `FX65` loads registers 0..X from
memory at the pre-operation I onward, leaves the other registers and all of
memory unchanged, and then increases I by exactly 1. -/
theorem c9_store_load (s : ChipState) (x : Nat) (hx : x < 16)
    (hr : s.reg.length = 16) (hm : s.mem.length = 4096) (hi : s.i + x < 4096) :
    (errAfter s (0xF055 + x * 256) = some none ∧
     iAfter s (0xF055 + x * 256) = some (s.i + 1) ∧
     (∀ k, k ≤ x → memAfter s (0xF055 + x * 256) (s.i + k) = some (regGet s k)) ∧
     (∀ a, a < s.i ∨ s.i + x < a → memAfter s (0xF055 + x * 256) a = some (s.mem.getD a 0)) ∧
     (∀ k, regAfter s (0xF055 + x * 256) k = some (regGet s k))) ∧
    (errAfter s (0xF065 + x * 256) = some none ∧
     iAfter s (0xF065 + x * 256) = some (s.i + 1) ∧
     (∀ k, k ≤ x → regAfter s (0xF065 + x * 256) k = some (s.mem.getD (s.i + k) 0)) ∧
     (∀ k, x < k → regAfter s (0xF065 + x * 256) k = some (regGet s k)) ∧
     (∀ a, memAfter s (0xF065 + x * 256) a = some (s.mem.getD a 0))) := by
  constructor
  · obtain ⟨m, hsm, hlen, hin, hout⟩ := storeRegs_some s.reg s.i (x + 1) 0 s.mem (by omega)
    have hd := evalMatch_fx55 s x hx
    rw [hsm] at hd
    have he := eval_ok hd
    refine ⟨by simp [errAfter, he], ?_, ?_, ?_, ?_⟩
    · simp [iAfter, he, tickTimers, pcAdd2, Nat.mod_eq_of_lt (show s.i + 1 < 65536 by omega)]
    · intro k hk
      simpa [memAfter, he, tickTimers, pcAdd2, regGet] using hin k (by omega) (by omega)
    · intro a ha
      simpa [memAfter, he, tickTimers, pcAdd2] using hout a (by omega)
    · intro k
      simp [regAfter, he, tickTimers, pcAdd2, regGet]
  · obtain ⟨r, hsr, hlen, hin, hout⟩ := loadRegs_some s.mem s.i (x + 1) 0 s.reg (by omega)
    have hd := evalMatch_fx65 s x hx
    rw [hsr] at hd
    have he := eval_ok hd
    refine ⟨by simp [errAfter, he], ?_, ?_, ?_, ?_⟩
    · simp [iAfter, he, tickTimers, pcAdd2, Nat.mod_eq_of_lt (show s.i + 1 < 65536 by omega)]
    · intro k hk
      simpa [regAfter, he, tickTimers, pcAdd2, regGet] using hin k (by omega) (by omega) (by omega)
    · intro k hk
      simpa [regAfter, he, tickTimers, pcAdd2, regGet] using hout k (by omega)
    · intro a
      simp [memAfter, he, tickTimers, pcAdd2]

/-- C8, witness: `F10A` blocks (PC unchanged) on a machine with no key down,
and with key 3 down it stores 3 into register 1 and advances. -/
theorem c8_fx0a_witness :
    (1 < 16 ∧ smallChip.reg.length = 16 ∧
      (∀ j, j < 16 → key_is_pressed smallChip j = false)) ∧
    eval smallChip (0xF00A + 1 * 256) = some (none, tickTimers smallChip) ∧
    regAfter { smallChip with keys := 8 } (0xF00A + 1 * 256) 1 = some 3 ∧
    pcAfter { smallChip with keys := 8 } (0xF00A + 1 * 256) =
      some ((({ smallChip with keys := 8 } : ChipState).pc + 2) % 65536) :=
  ⟨⟨by decide, by decide, by decide⟩,
   ((c8_fx0a smallChip 1 (by decide) (by decide)).1 (by decide)).1,
   ((c8_fx0a { smallChip with keys := 8 } 1 (by decide) (by decide)).2 3 (by decide)
      (by decide) (by decide)).1,
   ((c8_fx0a { smallChip with keys := 8 } 1 (by decide) (by decide)).2 3 (by decide)
      (by decide) (by decide)).2.1⟩

/-- C9, witness: `F155` on a machine with reg[0] = 7 and I = 0x300 writes 7 to
address 0x300 and bumps I to 0x301; `F165` reads register 0 back from memory. -/
theorem c9_store_load_witness :
    (1 < 16 ∧ chip9.reg.length = 16 ∧ chip9.mem.length = 4096 ∧ chip9.i + 1 < 4096) ∧
    memAfter chip9 (0xF055 + 1 * 256) (chip9.i + 0) = some (regGet chip9 0) ∧
    iAfter chip9 (0xF055 + 1 * 256) = some (chip9.i + 1) ∧
    regAfter chip9 (0xF065 + 1 * 256) 0 = some (chip9.mem.getD (chip9.i + 0) 0) ∧
    iAfter chip9 (0xF065 + 1 * 256) = some (chip9.i + 1) :=
  ⟨⟨by decide, by decide, new_mem_length 1, by decide⟩,
   (c9_store_load chip9 1 (by decide) (by decide)
      (new_mem_length 1) (by decide)).1.2.2.1 0 (by decide),
   (c9_store_load chip9 1 (by decide) (by decide)
      (new_mem_length 1) (by decide)).1.2.1,
   (c9_store_load chip9 1 (by decide) (by decide)
      (new_mem_length 1) (by decide)).2.2.2.1 0 (by decide),
   (c9_store_load chip9 1 (by decide) (by decide)
      (new_mem_length 1) (by decide)).2.2.1⟩
theorem nib_eq (instr : Nat) (h : instr < 65536) :
    (instr >>> 8) % 256 &&& 240 = instr / 4096 * 16 := by
  have h2 : instr >>> 8 % 256 = instr / 256 := by rw [shr8]; omega
  rw [h2, andF0 (instr / 256) (by omega)]
  omega

theorem evalMatch_undef (s : ChipState) (instr : Nat) (h : instr < 65536)
    (hu : listedOp instr = false) :
    evalMatch s instr = some (some (Error.UndefinedOp instr), s) := by
  obtain ⟨a, ha, ha16⟩ : ∃ a, instr / 4096 = a ∧ a < 16 :=
    ⟨instr / 4096, rfl, by omega⟩
  have hnib2 : (instr >>> 8) % 256 &&& 240 = a * 16 := by rw [nib_eq instr h, ha]
  have hc : instr % 256 &&& 15 = instr % 16 := by rw [and15]; omega
  have hd2 : instr &&& 15 = instr % 16 := and15 instr
  simp only [listedOp] at hu
  rw [ha] at hu
  simp only [evalMatch]
  rw [hnib2, hc, hd2]
  interval_cases a <;> norm_num at hu ⊢
  · rw [if_neg (show ¬instr = 224 by omega), if_neg (show ¬instr = 238 by omega)]
  · exact fun h0 => absurd h0 hu
  · rw [if_neg (show ¬instr % 16 = 0 by omega), if_neg (show ¬instr % 16 = 1 by omega),
      if_neg (show ¬instr % 16 = 2 by omega), if_neg (show ¬instr % 16 = 3 by omega),
      if_neg (show ¬instr % 16 = 4 by omega), if_neg (show ¬instr % 16 = 5 by omega),
      if_neg (show ¬instr % 16 = 6 by omega), if_neg (show ¬instr % 16 = 7 by omega),
      if_neg (show ¬instr % 16 = 14 by omega)]
  · exact fun h0 => absurd h0 hu
  · rw [if_neg (show ¬instr % 256 = 158 by omega), if_neg (show ¬instr % 256 = 161 by omega)]
  · rw [if_neg (show ¬instr % 256 = 7 by omega), if_neg (show ¬instr % 256 = 10 by omega),
      if_neg (show ¬instr % 256 = 21 by omega), if_neg (show ¬instr % 256 = 24 by omega),
      if_neg (show ¬instr % 256 = 30 by omega), if_neg (show ¬instr % 256 = 41 by omega),
      if_neg (show ¬instr % 256 = 51 by omega), if_neg (show ¬instr % 256 = 85 by omega),
      if_neg (show ¬instr % 256 = 101 by omega)]

theorem evalMatch_err_inv (s : ChipState) (instr : Nat) (e : Error) (s' : ChipState)
    (h : instr < 65536) (hm : evalMatch s instr = some (some e, s')) :
    s' = s ∧ ((e = Error.UndefinedOp instr ∧ listedOp instr = false) ∨
      (e = Error.PoppedEmptyStack ∧ instr = 0x00EE ∧ s.stack = [])) := by
  obtain ⟨a, ha, ha16⟩ : ∃ a, instr / 4096 = a ∧ a < 16 :=
    ⟨instr / 4096, rfl, by omega⟩
  have hnib2 : (instr >>> 8) % 256 &&& 240 = a * 16 := by rw [nib_eq instr h, ha]
  have hc : instr % 256 &&& 15 = instr % 16 := by rw [and15]; omega
  have hd2 : instr &&& 15 = instr % 16 := and15 instr
  simp only [evalMatch] at hm
  rw [hnib2, hc, hd2] at hm
  interval_cases a
  · norm_num at hm
    split_ifs at hm with h224 h238
    · simp at hm
    · cases hstk : s.stack with
      | nil =>
        rw [hstk] at hm
        simp at hm
        exact ⟨hm.2.symm, Or.inr ⟨hm.1.symm, by omega, rfl⟩⟩
      | cons top rest =>
        rw [hstk] at hm
        simp at hm
    · simp at hm
      exact ⟨hm.2.symm, Or.inl ⟨hm.1.symm, by simp only [listedOp, ha]; norm_num; omega⟩⟩
  · norm_num at hm
    exact Option.noConfusion hm.1
  · norm_num at hm
    exact Option.noConfusion hm.1
  · norm_num at hm
    exact Option.noConfusion hm.1
  · norm_num at hm
    exact Option.noConfusion hm.1
  · norm_num at hm
    repeat' (split at hm)
    all_goals simp at hm
    exact ⟨hm.2.symm, Or.inl ⟨hm.1.symm, by simp only [listedOp, ha]; norm_num; omega⟩⟩
  · norm_num at hm
    exact Option.noConfusion hm.1
  · norm_num at hm
    exact Option.noConfusion hm.1
  · norm_num at hm
    repeat' (split at hm)
    all_goals simp at hm
    exact ⟨hm.2.symm, Or.inl ⟨hm.1.symm, by simp only [listedOp, ha]; norm_num; omega⟩⟩
  · norm_num at hm
    repeat' (split at hm)
    all_goals simp at hm
    exact ⟨hm.2.symm, Or.inl ⟨hm.1.symm, by simp only [listedOp, ha]; norm_num; omega⟩⟩
  · norm_num at hm
    exact Option.noConfusion hm.1
  · norm_num at hm
    exact Option.noConfusion hm.1
  · norm_num at hm
    exact Option.noConfusion hm.1
  · norm_num at hm
    repeat' (split at hm)
    all_goals simp at hm
  · norm_num at hm
    repeat' (split at hm)
    all_goals simp at hm
    exact ⟨hm.2.symm, Or.inl ⟨hm.1.symm, by simp only [listedOp, ha]; norm_num; omega⟩⟩
  · norm_num at hm
    by_cases h7 : instr % 256 = 7
    · rw [if_pos h7] at hm
      simp at hm
    · rw [if_neg h7] at hm
      by_cases h10 : instr % 256 = 10
      · rw [if_pos h10] at hm
        repeat' (split at hm)
        all_goals simp at hm
      · rw [if_neg h10] at hm
        by_cases h21 : instr % 256 = 21
        · rw [if_pos h21] at hm
          simp at hm
        · rw [if_neg h21] at hm
          by_cases h24 : instr % 256 = 24
          · rw [if_pos h24] at hm
            simp at hm
          · rw [if_neg h24] at hm
            by_cases h30 : instr % 256 = 30
            · rw [if_pos h30] at hm
              simp at hm
            · rw [if_neg h30] at hm
              by_cases h41 : instr % 256 = 41
              · rw [if_pos h41] at hm
                simp at hm
              · rw [if_neg h41] at hm
                by_cases h51 : instr % 256 = 51
                · rw [if_pos h51] at hm
                  repeat' (split at hm)
                  all_goals simp at hm
                · rw [if_neg h51] at hm
                  by_cases h85 : instr % 256 = 85
                  · rw [if_pos h85] at hm
                    repeat' (split at hm)
                    all_goals simp at hm
                  · rw [if_neg h85] at hm
                    by_cases h101 : instr % 256 = 101
                    · rw [if_pos h101] at hm
                      repeat' (split at hm)
                      all_goals simp at hm
                    · rw [if_neg h101] at hm
                      simp at hm
                      refine ⟨hm.2.symm, Or.inl ⟨hm.1.symm, ?_⟩⟩
                      simp only [listedOp, ha]
                      norm_num
                      omega

theorem eval_err_inv {s : ChipState} {instr : Nat} {e : Error} {s' : ChipState}
    (h : eval s instr = some (some e, s')) :
    evalMatch s instr = some (some e, s') := by
  unfold eval at h
  cases hm : evalMatch s instr with
  | none => rw [hm] at h; simp at h
  | some p =>
    obtain ⟨r, s1⟩ := p
    cases r with
    | none => rw [hm] at h; simp at h
    | some e2 =>
      rw [hm] at h
      simp only [Option.some.injEq, Prod.mk.injEq] at h
      rw [← h.1, ← h.2]

/-- C2: `eval` (and hence `tick`) returns an error in exactly two cases — an
`UndefinedOp` carrying the raw instruction word whenever the word matches no
listed opcode pattern, and `PoppedEmptyStack` when `00EE` runs with an empty
stack — and every error leaves the entire machine state unchanged; `tick`
errors are exactly `eval` errors on the fetched word, and 0x5001 is not a
listed pattern. -/
theorem c2_errors :
    (∀ s instr e s', instr < 65536 → eval s instr = some (some e, s') →
      s' = s ∧ ((e = Error.UndefinedOp instr ∧ listedOp instr = false) ∨
        (e = Error.PoppedEmptyStack ∧ instr = 0x00EE ∧ s.stack = []))) ∧
    (∀ s instr, instr < 65536 → listedOp instr = false →
      eval s instr = some (some (Error.UndefinedOp instr), s)) ∧
    (∀ s : ChipState, s.stack = [] →
      eval s 0x00EE = some (some Error.PoppedEmptyStack, s)) ∧
    (∀ s e s', tick s = some (some e, s') →
      ∃ w, fetchInstr s = some w ∧ eval s w = some (some e, s')) ∧
    listedOp 0x5001 = false := by
  refine ⟨?_, ?_, ?_, ?_, by decide⟩
  · intro s instr e s' h hm
    exact evalMatch_err_inv s instr e s' h (eval_err_inv hm)
  · intro s instr h hu
    exact eval_err (evalMatch_undef s instr h hu)
  · intro s hstk
    have hd := evalMatch_00ee s
    rw [hstk] at hd
    exact eval_err hd
  · intro s e s' h
    unfold tick at h
    cases hf : fetchInstr s with
    | none => rw [hf] at h; simp at h
    | some w =>
      rw [hf] at h
      exact ⟨w, rfl, h⟩

/-- C2, witness: instruction word 0x5001 yields `UndefinedOp 0x5001` and `00EE`
on an empty stack yields `PoppedEmptyStack`, both leaving the state unchanged. -/
theorem c2_errors_witness :
    ((0x5001 : Nat) < 65536 ∧ listedOp 0x5001 = false ∧ smallChip.stack = []) ∧
    eval smallChip 0x5001 = some (some (Error.UndefinedOp 0x5001), smallChip) ∧
    eval smallChip 0x00EE = some (some Error.PoppedEmptyStack, smallChip) :=
  ⟨⟨by decide, by decide, by decide⟩,
   c2_errors.2.1 smallChip 0x5001 (by decide) (by decide),
   c2_errors.2.2.1 smallChip (by decide)⟩
theorem list_getD_set_self (l : List Nat) (i v : Nat) (h : i < l.length) :
    (l.set i v).getD i 0 = v := by
  rw [List.getD_eq_getElem?_getD, List.getElem?_set_self h]
  rfl

theorem list_getD_set_ne (l : List Nat) (i j v : Nat) (h : i ≠ j) :
    (l.set i v).getD j 0 = l.getD j 0 := by
  rw [List.getD_eq_getElem?_getD, List.getD_eq_getElem?_getD, List.getElem?_set_ne h]

theorem and_eq_zero_iff_testBit (a b : Nat) :
    a &&& b = 0 ↔ ∀ i, ¬(a.testBit i = true ∧ b.testBit i = true) := by
  constructor
  · intro h i hab
    have h2 := congrArg (Nat.testBit · i) h
    simp [Nat.testBit_and, hab.1, hab.2] at h2
  · intro h
    apply Nat.eq_of_testBit_eq
    intro i
    simp only [Nat.testBit_and, Nat.zero_testBit]
    cases hA : a.testBit i <;> cases hB : b.testBit i <;> simp_all

theorem xor_eq_or_iff (a b : Nat) : a ^^^ b = (a ||| b) ↔ a &&& b = 0 := by
  constructor
  · intro h
    rw [and_eq_zero_iff_testBit]
    intro i hab
    have h2 := congrArg (Nat.testBit · i) h
    simp [Nat.testBit_xor, Nat.testBit_or, hab.1, hab.2] at h2
  · intro h
    rw [and_eq_zero_iff_testBit] at h
    apply Nat.eq_of_testBit_eq
    intro i
    simp only [Nat.testBit_xor, Nat.testBit_or]
    cases hA : a.testBit i <;> cases hB : b.testBit i <;> simp_all

theorem flag_eq (old line : Nat) :
    (if old ^^^ line ≠ (old ||| line) then (1 : Nat) else 0) =
      (if old &&& line ≠ 0 then 1 else 0) := by
  by_cases h : old &&& line = 0
  · rw [if_neg (by simpa [xor_eq_or_iff] using h), if_neg (by simpa using h)]
  · rw [if_pos (by simpa [xor_eq_or_iff] using h), if_pos (by simpa using h)]

theorem drawLoop_none_iff (mem : List Nat) (x : Nat) :
    ∀ cnt addr y fbuf vf, y ≤ 31 →
      (drawLoop mem x addr cnt y fbuf vf = none ↔
        1 ≤ min cnt (32 - y) ∧ mem.length < addr + min cnt (32 - y)) := by
  intro cnt
  induction cnt with
  | zero =>
    intro addr y fbuf vf hy
    simp only [drawLoop]
    constructor
    · intro h
      exact absurd h (by simp)
    · intro h
      omega
  | succ cnt ih =>
    intro addr y fbuf vf hy
    rw [drawLoop]
    cases hb : memGet mem addr with
    | none =>
      have haddr : mem.length ≤ addr := List.getElem?_eq_none_iff.mp (memGet_eq mem addr ▸ hb)
      simp only [hb]
      simp only [true_iff]
      omega
    | some byte =>
      have haddr : addr < mem.length := by
        by_contra hcon
        rw [memGet_eq, List.getElem?_eq_none (by omega)] at hb
        exact Option.noConfusion hb
      simp only [hb]
      by_cases hy31 : y + 1 > 31
      · rw [if_pos hy31]
        simp only [iff_false, reduceCtorEq, false_iff]
        omega
      · rw [if_neg hy31, ih (addr + 1) (y + 1) _ _ (by omega)]
        omega

theorem drawLoop_some_spec (mem : List Nat) (x : Nat) :
    ∀ cnt addr y fbuf vf fb2 vf2, y ≤ 31 → fbuf.length = 32 →
      drawLoop mem x addr cnt y fbuf vf = some (fb2, vf2) →
      fb2.length = 32 ∧
      (∀ row, fb2.getD row 0 =
        if y ≤ row ∧ row < y + min cnt (32 - y) then
          fbuf.getD row 0 ^^^ lineOf (mem.getD (addr + (row - y)) 0) x
        else fbuf.getD row 0) ∧
      vf2 = (if 1 ≤ min cnt (32 - y) then
          (if fbuf.getD (y + min cnt (32 - y) - 1) 0 &&&
              lineOf (mem.getD (addr + (min cnt (32 - y) - 1)) 0) x ≠ 0 then 1 else 0)
        else vf) := by
  intro cnt
  induction cnt with
  | zero =>
    intro addr y fbuf vf fb2 vf2 hy hlen h
    simp only [drawLoop, Option.some.injEq, Prod.mk.injEq] at h
    obtain ⟨h1, h2⟩ := h
    subst h1
    subst h2
    refine ⟨hlen, ?_, ?_⟩
    · intro row
      rw [if_neg (by omega)]
    · rw [if_neg (by omega)]
  | succ cnt ih =>
    intro addr y fbuf vf fb2 vf2 hy hlen h
    rw [drawLoop] at h
    cases hb : memGet mem addr with
    | none =>
      simp only [hb] at h
      exact absurd h (by simp)
    | some byte =>
      simp only [hb] at h
      have hbD : mem.getD addr 0 = byte := by
        rw [List.getD_eq_getElem?_getD, ← memGet_eq, hb]
        rfl
      by_cases hy31 : y + 1 > 31
      · rw [if_pos hy31] at h
        simp only [Option.some.injEq, Prod.mk.injEq] at h
        obtain ⟨h1, h2⟩ := h
        have hmin : min (cnt + 1) (32 - y) = 1 := by omega
        refine ⟨by rw [← h1]; simp [hlen], ?_, ?_⟩
        · intro row
          rw [← h1, hmin]
          by_cases hrow : row = y
          · subst hrow
            rw [if_pos (by omega), list_getD_set_self fbuf _ _ (by omega),
              show row - row = 0 from by omega, Nat.add_zero, hbD]
          · rw [if_neg (by omega), list_getD_set_ne fbuf _ _ _ (by omega)]
        · rw [← h2, hmin, flag_eq, if_pos (show (1 : Nat) ≤ 1 from by norm_num),
            show y + 1 - 1 = y from by omega, show addr + (1 - 1) = addr from by omega, hbD]
      · rw [if_neg hy31] at h
        obtain ⟨hl2, hrow2, hvf2⟩ := ih (addr + 1) (y + 1) _ _ fb2 vf2 (by omega) (by simp [hlen]) h
        have hmin : min (cnt + 1) (32 - y) = min cnt (32 - (y + 1)) + 1 := by omega
        refine ⟨hl2, ?_, ?_⟩
        · intro row
          rw [hrow2 row, hmin]
          by_cases hry : row = y
          · subst hry
            rw [if_neg (by omega), list_getD_set_self fbuf _ _ (by omega), if_pos (by omega),
              show row - row = 0 from by omega, Nat.add_zero, hbD]
          · by_cases hin2 : y + 1 ≤ row ∧ row < y + 1 + min cnt (32 - (y + 1))
            · rw [if_pos hin2, if_pos (by omega), list_getD_set_ne fbuf y row _ (by omega),
                show addr + 1 + (row - (y + 1)) = addr + (row - y) from by omega]
            · rw [if_neg hin2, if_neg (by omega), list_getD_set_ne fbuf y row _ (by omega)]
        · rw [hvf2, hmin, if_pos (show 1 ≤ min cnt (32 - (y + 1)) + 1 from by omega)]
          by_cases hm0 : 1 ≤ min cnt (32 - (y + 1))
          · rw [if_pos hm0, list_getD_set_ne fbuf y _ _ (by omega),
              show y + 1 + min cnt (32 - (y + 1)) - 1 = y + (min cnt (32 - (y + 1)) + 1) - 1 from by omega,
              show addr + 1 + (min cnt (32 - (y + 1)) - 1) = addr + (min cnt (32 - (y + 1)) + 1 - 1) from by omega]
          · rw [if_neg hm0, flag_eq,
              show y + (min cnt (32 - (y + 1)) + 1) - 1 = y from by omega,
              show addr + (min cnt (32 - (y + 1)) + 1 - 1) = addr from by omega, hbD]

theorem evalMatch_dxyn (s : ChipState) (x y n : Nat) (hx : x < 16) (hy : y < 16)
    (hn : n < 16) :
    evalMatch s (0xD000 + x * 256 + y * 16 + n) =
      (match drawLoop s.mem (regGet s x % 64) s.i ((s.i + n) % 65536 - s.i)
          (regGet s y % 32) s.fbuf 0 with
       | none => none
       | some (fb, vf) =>
         some (none, pcAdd2 { s with fbuf := fb, reg := (s.reg.set 15 0).set 15 vf })) := by
  have e1 : (0xD000 + x * 256 + y * 16 + n) >>> 8 % 256 = 208 + x := by rw [shr8]; omega
  have e2 : (0xD000 + x * 256 + y * 16 + n) % 256 = y * 16 + n := by omega
  have e3 : (208 + x) &&& 240 = 208 := by rw [andF0 _ (by omega)]; omega
  have e4 : (208 + x) &&& 15 = x := by rw [and15]; omega
  have e5 : ((y * 16 + n) &&& 240) >>> 4 = y := by rw [andF0 _ (by omega), shr4]; omega
  have e6 : (y * 16 + n) &&& 15 = n := by rw [and15]; omega
  simp only [evalMatch, e1, e2, e3, e4, e5, e6]
  norm_num [regSet]

/-- C7: a `DXYN` draw places the sprite origin at (reg[X] mod 64, reg[Y] mod
32); each drawn row receives the XOR of a 64-bit line holding the sprite byte
aligned to the origin column with bits beyond column 63 dropped (no horizontal
wraparound); rows outside the clipped range are unchanged and the framebuffer
keeps exactly 32 rows, the drawing stopping after min N (32 - y0) rows without
error (vertical clipping, no vertical wraparound). -/
theorem c7_draw_geometry (s : ChipState) (x y n : Nat) (hx : x < 16) (hy : y < 16)
    (hn : n < 16) (hfb : s.fbuf.length = 32) (hin : s.i + n < 65536)
    (hmem : s.i + min n (32 - regGet s y % 32) ≤ s.mem.length) :
    errAfter s (0xD000 + x * 256 + y * 16 + n) = some none ∧
    ((eval s (0xD000 + x * 256 + y * 16 + n)).map fun r => r.2.fbuf.length) = some 32 ∧
    (∀ row, rowAfter s (0xD000 + x * 256 + y * 16 + n) row =
      some (if regGet s y % 32 ≤ row ∧
          row < regGet s y % 32 + min n (32 - regGet s y % 32) then
        s.fbuf.getD row 0 ^^^
          lineOf (s.mem.getD (s.i + (row - regGet s y % 32)) 0) (regGet s x % 64)
      else s.fbuf.getD row 0)) := by
  have hcnt : (s.i + n) % 65536 - s.i = n := by omega
  have hd := evalMatch_dxyn s x y n hx hy hn
  rw [hcnt] at hd
  have hy31 : regGet s y % 32 ≤ 31 := by omega
  cases hdl : drawLoop s.mem (regGet s x % 64) s.i n (regGet s y % 32) s.fbuf 0 with
  | none =>
    rw [(drawLoop_none_iff s.mem (regGet s x % 64) n s.i (regGet s y % 32) s.fbuf 0 hy31)] at hdl
    omega
  | some p =>
    obtain ⟨fb, vf⟩ := p
    rw [hdl] at hd
    obtain ⟨hlen2, hrow, hvf⟩ :=
      drawLoop_some_spec s.mem (regGet s x % 64) n s.i (regGet s y % 32) s.fbuf 0 fb vf
        hy31 hfb hdl
    have he := eval_ok hd
    refine ⟨by simp [errAfter, he], ?_, ?_⟩
    · simp [he, tickTimers, pcAdd2, hlen2]
    · intro row
      have hproj : (tickTimers (pcAdd2 { s with fbuf := fb, reg := (s.reg.set 15 0).set 15 vf })).fbuf = fb := rfl
      simp only [rowAfter, he, Option.map_some']
      rw [hproj, hrow row]

/-- C3: after a `DXYN` draw of at least one row, register F equals 1 iff the
pre-draw contents of the last drawn row and its shifted sprite line share a
set bit (the XOR cleared a previously-set pixel), the flag being evaluated per
row with the last drawn row's value surviving; concretely, drawing the digit-0
glyph at (0,0) on a fresh machine leaves register F = 0 and drawing it again
at the same spot leaves register F = 1. -/
theorem c3_draw_collision :
    (∀ s x y n, x < 16 → y < 16 → n < 16 → 1 ≤ n → s.reg.length = 16 →
      s.fbuf.length = 32 → s.i + n < 65536 →
      s.i + min n (32 - regGet s y % 32) ≤ s.mem.length →
      regAfter s (0xD000 + x * 256 + y * 16 + n) 15 =
        some (if s.fbuf.getD (regGet s y % 32 + min n (32 - regGet s y % 32) - 1) 0 &&&
            lineOf (s.mem.getD (s.i + (min n (32 - regGet s y % 32) - 1)) 0)
              (regGet s x % 64) ≠ 0 then 1 else 0)) ∧
    regAfter (ChipState.new 3) 0xD005 15 = some 0 ∧
    regAfter draw1 0xD005 15 = some 1 := by
  refine ⟨?_, by decide, by decide⟩
  intro s x y n hx hy hn h1 hreg hfb hin hmem
  have hcnt : (s.i + n) % 65536 - s.i = n := by omega
  have hd := evalMatch_dxyn s x y n hx hy hn
  rw [hcnt] at hd
  have hy31 : regGet s y % 32 ≤ 31 := by omega
  cases hdl : drawLoop s.mem (regGet s x % 64) s.i n (regGet s y % 32) s.fbuf 0 with
  | none =>
    rw [(drawLoop_none_iff s.mem (regGet s x % 64) n s.i (regGet s y % 32) s.fbuf 0 hy31)] at hdl
    omega
  | some p =>
    obtain ⟨fb, vf⟩ := p
    rw [hdl] at hd
    obtain ⟨hlen2, hrow, hvf⟩ :=
      drawLoop_some_spec s.mem (regGet s x % 64) n s.i (regGet s y % 32) s.fbuf 0 fb vf
        hy31 hfb hdl
    have he := eval_ok hd
    have hproj : regGet (tickTimers (pcAdd2 { s with fbuf := fb, reg := (s.reg.set 15 0).set 15 vf })) 15 = vf := by
      show ((s.reg.set 15 0).set 15 vf).getD 15 0 = vf
      exact list_getD_set_self _ 15 vf (by simp [hreg])
    simp only [regAfter, he, Option.map_some']
    rw [hproj, hvf, if_pos (show 1 ≤ min n (32 - regGet s y % 32) from by omega)]

theorem eval_none_iff (s : ChipState) (instr : Nat) :
    eval s instr = none ↔ evalMatch s instr = none := by
  unfold eval
  cases hm : evalMatch s instr with
  | none => simp
  | some p =>
    obtain ⟨r, s1⟩ := p
    cases r <;> simp

theorem evalMatch_fx33 (s : ChipState) (x : Nat) (hx : x < 16) :
    evalMatch s (0xF033 + x * 256) =
      (match memSet s.mem s.i (regGet s x / 100) with
       | none => none
       | some m1 =>
         match memSet m1 (s.i + 1) (regGet s x % 100 / 10) with
         | none => none
         | some m2 =>
           match memSet m2 (s.i + 2) (regGet s x % 10) with
           | none => none
           | some m3 => some (none, pcAdd2 { s with mem := m3 })) := by
  have e1 : (0xF033 + x * 256) >>> 8 % 256 = 240 + x := by rw [shr8]; omega
  have e2 : (0xF033 + x * 256) % 256 = 0x33 := by omega
  have e3 : (240 + x) &&& 240 = 240 := by rw [andF0 _ (by omega)]; omega
  have e4 : (240 + x) &&& 15 = x := by rw [and15]; omega
  simp only [evalMatch, e1, e2, e3, e4]
  norm_num

theorem evalMatch_fx1e (s : ChipState) (x : Nat) (hx : x < 16) :
    evalMatch s (0xF01E + x * 256) =
      some (none, pcAdd2 { s with i := (s.i + regGet s x) % 65536 }) := by
  have e1 : (0xF01E + x * 256) >>> 8 % 256 = 240 + x := by rw [shr8]; omega
  have e2 : (0xF01E + x * 256) % 256 = 0x1E := by omega
  have e3 : (240 + x) &&& 240 = 240 := by rw [andF0 _ (by omega)]; omega
  have e4 : 15 &&& (240 + x) = x := by rw [and15L]; omega
  simp only [evalMatch, e1, e2, e3, e4]
  norm_num

/-- C10 (amended): the two-byte fetch accesses in-bounds memory exactly when
PC does not exceed 0xFFE; `FX33` exactly when I + 3 does not exceed 0x1000;
`FX55`/`FX65` exactly when I + X + 1 does not exceed 0x1000; `DXYN` exactly
when min(N, 32 - reg[Y] mod 32) is zero or I plus that clipped row count does
not exceed 0x1000 (vertical clipping limits the bytes read, correcting the
claim's unclipped span I + N); `FX1E` adds to I modulo 2^16 without any mask
and cannot fault; out-of-bounds access is a panic (`none`), never a returned
`Error`. -/
theorem c10_mem_bounds (s : ChipState) (x y n : Nat) (hx : x < 16) (hy : y < 16)
    (hn : n < 16) (hm : s.mem.length = 4096) (hin : s.i + n < 65536) :
    (fetchInstr s = none ↔ 4094 < s.pc) ∧
    (eval s (0xD000 + x * 256 + y * 16 + n) = none ↔
      1 ≤ min n (32 - regGet s y % 32) ∧ 4096 < s.i + min n (32 - regGet s y % 32)) ∧
    (∀ e s2, eval s (0xD000 + x * 256 + y * 16 + n) ≠ some (some e, s2)) ∧
    (eval s (0xF033 + x * 256) = none ↔ 4096 < s.i + 3) ∧
    (∀ e s2, eval s (0xF033 + x * 256) ≠ some (some e, s2)) ∧
    (eval s (0xF055 + x * 256) = none ↔ 4096 < s.i + (x + 1)) ∧
    (∀ e s2, eval s (0xF055 + x * 256) ≠ some (some e, s2)) ∧
    (eval s (0xF065 + x * 256) = none ↔ 4096 < s.i + (x + 1)) ∧
    (∀ e s2, eval s (0xF065 + x * 256) ≠ some (some e, s2)) ∧
    iAfter s (0xF01E + x * 256) = some ((s.i + regGet s x) % 65536) ∧
    errAfter s (0xF01E + x * 256) = some none := by
  have hcnt : (s.i + n) % 65536 - s.i = n := by omega
  have hdD := evalMatch_dxyn s x y n hx hy hn
  rw [hcnt] at hdD
  have hy31 : regGet s y % 32 ≤ 31 := by omega
  have hiff := drawLoop_none_iff s.mem (regGet s x % 64) n s.i (regGet s y % 32) s.fbuf 0 hy31
  refine ⟨?_, ?_, ?_, ?_, ?_, ?_, ?_, ?_, ?_, ?_, ?_⟩
  · constructor
    · intro h
      unfold fetchInstr at h
      cases h1 : memGet s.mem s.pc with
      | none =>
        rw [memGet_eq] at h1
        have := List.getElem?_eq_none_iff.mp h1
        omega
      | some hi =>
        rw [h1] at h
        cases h2 : memGet s.mem (s.pc + 1) with
        | none =>
          rw [memGet_eq] at h2
          have := List.getElem?_eq_none_iff.mp h2
          omega
        | some lo =>
          rw [h2] at h
          simp at h
    · intro hpc
      have h2 : memGet s.mem (s.pc + 1) = none := by
        rw [memGet_eq]
        exact List.getElem?_eq_none (by omega)
      unfold fetchInstr
      rw [h2]
      cases memGet s.mem s.pc <;> rfl
  · rw [eval_none_iff, hdD]
    cases hdl : drawLoop s.mem (regGet s x % 64) s.i n (regGet s y % 32) s.fbuf 0 with
    | none =>
      rw [hdl] at hiff
      simp only [true_iff] at hiff
      simp only [hdl]
      constructor
      · intro _
        omega
      · intro _
        trivial
    | some p =>
      obtain ⟨fb, vf⟩ := p
      rw [hdl] at hiff
      simp only [reduceCtorEq, false_iff] at hiff
      simp only [hdl]
      constructor
      · intro hcontra
        exact absurd hcontra (by simp)
      · intro hc
        exact absurd (by omega : 1 ≤ min n (32 - regGet s y % 32) ∧
          s.mem.length < s.i + min n (32 - regGet s y % 32)) hiff
  · intro e s2 hcontra
    have hinv := eval_err_inv hcontra
    rw [hdD] at hinv
    cases hdl : drawLoop s.mem (regGet s x % 64) s.i n (regGet s y % 32) s.fbuf 0 with
    | none => rw [hdl] at hinv; simp at hinv
    | some p =>
      obtain ⟨fb, vf⟩ := p
      rw [hdl] at hinv
      simp at hinv
  · rw [eval_none_iff, evalMatch_fx33 s x hx]
    by_cases hb1 : s.i < 4096
    · have hs1 : memSet s.mem s.i (regGet s x / 100) =
          some (s.mem.set s.i (regGet s x / 100)) := by rw [memSet, if_pos (by omega)]
      simp only [hs1]
      by_cases hb2 : s.i + 1 < 4096
      · have hs2 : memSet (s.mem.set s.i (regGet s x / 100)) (s.i + 1) (regGet s x % 100 / 10) =
            some ((s.mem.set s.i (regGet s x / 100)).set (s.i + 1) (regGet s x % 100 / 10)) := by
          rw [memSet, if_pos (by simp; omega)]
        simp only [hs2]
        by_cases hb3 : s.i + 2 < 4096
        · have hs3 : memSet ((s.mem.set s.i (regGet s x / 100)).set (s.i + 1) (regGet s x % 100 / 10))
              (s.i + 2) (regGet s x % 10) =
              some (((s.mem.set s.i (regGet s x / 100)).set (s.i + 1) (regGet s x % 100 / 10)).set
                (s.i + 2) (regGet s x % 10)) := by
            rw [memSet, if_pos (by simp; omega)]
          simp only [hs3]
          simp
          omega
        · have hs3 : memSet ((s.mem.set s.i (regGet s x / 100)).set (s.i + 1) (regGet s x % 100 / 10))
              (s.i + 2) (regGet s x % 10) = none := by
            rw [memSet, if_neg (by simp; omega)]
          simp only [hs3]
          simp
          omega
      · have hs2 : memSet (s.mem.set s.i (regGet s x / 100)) (s.i + 1) (regGet s x % 100 / 10) = none := by
          rw [memSet, if_neg (by simp; omega)]
        simp only [hs2]
        simp
        omega
    · have hs1 : memSet s.mem s.i (regGet s x / 100) = none := by
        rw [memSet, if_neg (by omega)]
      simp only [hs1]
      simp
      omega
  · intro e s2 hcontra
    have hinv := eval_err_inv hcontra
    rw [evalMatch_fx33 s x hx] at hinv
    cases h1 : memSet s.mem s.i (regGet s x / 100) with
    | none => simp [h1] at hinv
    | some m1 =>
      simp only [h1] at hinv
      cases h2 : memSet m1 (s.i + 1) (regGet s x % 100 / 10) with
      | none => simp [h2] at hinv
      | some m2 =>
        simp only [h2] at hinv
        cases h3 : memSet m2 (s.i + 2) (regGet s x % 10) with
        | none => simp [h3] at hinv
        | some m3 => simp only [h3] at hinv; simp at hinv
  · rw [eval_none_iff, evalMatch_fx55 s x hx]
    by_cases hbound : s.i + 0 + (x + 1) ≤ 4096
    · obtain ⟨m, hsm, _, _, _⟩ := storeRegs_some s.reg s.i (x + 1) 0 s.mem (by omega)
      rw [hsm]
      simp
      omega
    · have hsn := storeRegs_none s.reg s.i (x + 1) 0 s.mem (by omega) (by omega)
      rw [hsn]
      simp
      omega
  · intro e s2 hcontra
    have hinv := eval_err_inv hcontra
    rw [evalMatch_fx55 s x hx] at hinv
    cases h1 : storeRegs s.reg s.i 0 (x + 1) s.mem with
    | none => rw [h1] at hinv; simp at hinv
    | some m => rw [h1] at hinv; simp at hinv
  · rw [eval_none_iff, evalMatch_fx65 s x hx]
    by_cases hbound : s.i + 0 + (x + 1) ≤ 4096
    · obtain ⟨r, hsr, _, _, _⟩ := loadRegs_some s.mem s.i (x + 1) 0 s.reg (by omega)
      rw [hsr]
      simp
      omega
    · have hsn := loadRegs_none s.mem s.i (x + 1) 0 s.reg (by omega) (by omega)
      rw [hsn]
      simp
      omega
  · intro e s2 hcontra
    have hinv := eval_err_inv hcontra
    rw [evalMatch_fx65 s x hx] at hinv
    cases h1 : loadRegs s.mem s.i 0 (x + 1) s.reg with
    | none => rw [h1] at hinv; simp at hinv
    | some r => rw [h1] at hinv; simp at hinv
  · have he := eval_ok (evalMatch_fx1e s x hx)
    simp [iAfter, he, tickTimers, pcAdd2]
  · have he := eval_ok (evalMatch_fx1e s x hx)
    simp [errAfter, he]

/-- C10, counterexample: with I = 0xFFF and reg[1] = 31 (sprite at the bottom
row), a `DXYN` with N = 2 has I + N = 0x1001 > 0x1000, yet the instruction
succeeds without any out-of-bounds access because vertical clipping stops the
loop after a single byte — refuting the claim that the access is out of
bounds (a panic) exactly when I + N exceeds 0x1000. -/
theorem c10_counterexample :
    clipChip.mem.length = 4096 ∧ 4096 < clipChip.i + 2 ∧
    (eval clipChip 0xD012).isSome = true ∧ errAfter clipChip 0xD012 = some none :=
  ⟨new_mem_length 0, by decide, by decide, by decide⟩

/-- C10, witness: the amended bounds characterization instantiated on the
bottom-row machine: its clipped `DXY2` draw reads one byte at I = 0xFFF and
does not panic, while `F055` (storing registers 0..0 at I = 0xFFF) stays in
bounds as well. -/
theorem c10_mem_bounds_witness :
    (0 < 16 ∧ 1 < 16 ∧ 2 < 16 ∧ clipChip.mem.length = 4096 ∧ clipChip.i + 2 < 65536) ∧
    (eval clipChip (0xD000 + 0 * 256 + 1 * 16 + 2) = none ↔
      1 ≤ min 2 (32 - regGet clipChip 1 % 32) ∧
        4096 < clipChip.i + min 2 (32 - regGet clipChip 1 % 32)) ∧
    (eval clipChip (0xF055 + 0 * 256) = none ↔ 4096 < clipChip.i + (0 + 1)) :=
  ⟨⟨by decide, by decide, by decide, new_mem_length 0, by decide⟩,
   (c10_mem_bounds clipChip 0 1 2 (by decide) (by decide) (by decide)
      (new_mem_length 0) (by decide)).2.1,
   (c10_mem_bounds clipChip 0 1 2 (by decide) (by decide) (by decide)
      (new_mem_length 0) (by decide)).2.2.2.2.2.1⟩

/-- C7, witness: drawing the digit-0 glyph on a fresh machine, row 0 of the
framebuffer receives exactly the glyph's first byte shifted into the top bits
of the row. -/
theorem c7_draw_geometry_witness :
    (0 < 16 ∧ 5 < 16 ∧ (ChipState.new 3).fbuf.length = 32 ∧
      (ChipState.new 3).i + 5 < 65536) ∧
    rowAfter (ChipState.new 3) (0xD000 + 0 * 256 + 0 * 16 + 5) 0 =
      some (if regGet (ChipState.new 3) 0 % 32 ≤ 0 ∧
          0 < regGet (ChipState.new 3) 0 % 32 +
            min 5 (32 - regGet (ChipState.new 3) 0 % 32) then
        (ChipState.new 3).fbuf.getD 0 0 ^^^
          lineOf ((ChipState.new 3).mem.getD
            ((ChipState.new 3).i + (0 - regGet (ChipState.new 3) 0 % 32)) 0)
            (regGet (ChipState.new 3) 0 % 64)
      else (ChipState.new 3).fbuf.getD 0 0) :=
  ⟨⟨by decide, by decide, by decide, by decide⟩,
   (c7_draw_geometry (ChipState.new 3) 0 0 5 (by decide) (by decide) (by decide)
      (by decide) (by decide) (by rw [new_mem_length 3]; decide)).2.2 0⟩

/-- C3, witness: the last-row collision-flag characterization instantiated on
the fresh machine drawing the digit-0 glyph. -/
theorem c3_draw_collision_witness :
    (1 ≤ 5 ∧ (ChipState.new 3).reg.length = 16 ∧ (ChipState.new 3).fbuf.length = 32) ∧
    regAfter (ChipState.new 3) (0xD000 + 0 * 256 + 0 * 16 + 5) 15 =
      some (if (ChipState.new 3).fbuf.getD (regGet (ChipState.new 3) 0 % 32 +
            min 5 (32 - regGet (ChipState.new 3) 0 % 32) - 1) 0 &&&
          lineOf ((ChipState.new 3).mem.getD
            ((ChipState.new 3).i + (min 5 (32 - regGet (ChipState.new 3) 0 % 32) - 1)) 0)
            (regGet (ChipState.new 3) 0 % 64) ≠ 0 then 1 else 0) :=
  ⟨⟨by decide, by decide, by decide⟩,
   c3_draw_collision.1 (ChipState.new 3) 0 0 5 (by decide) (by decide) (by decide)
     (by decide) (by decide) (by decide) (by decide) (by rw [new_mem_length 3]; decide)⟩
